import Mathlib

set_option maxRecDepth 4096

/-!
Verification of the ai-rss-reader background ingestion pipeline.

This file gives a shallow embedding, in Lean 4, of the parts of the
TypeScript source that the specification's testable properties talk about:

* the `articles` upsert and the work queries of `DAO`
  (src/backend/src/lib/db/index.ts),
* the aggregator-URL resolution and the per-feed skip logic
  (src/backend/src/lib/crawler/rss.ts),
* the browser redirect resolver `fetchFinalUrl`
  (src/backend/src/lib/crawler/browser.ts),
* the evaluation / notification pipeline
  (src/backend/src/lib/crawler/article.ts,
   src/backend/src/lib/notifier/discord.ts),
* the `DomainQueueManager` scheduler
  (src/backend/src/lib/crawler/domain-queue.ts), and
* the worker cycle's crawler-status handling (src/backend/src/worker.ts).

Databases are modelled as lists of rows, SQLite's three-valued `WHERE`
logic is modelled explicitly, JavaScript `Map`s are modelled as
insertion-ordered association lists, and the external world (network,
browser, LLM, `new URL(...)` parsing) is passed in as explicit oracle
arguments.  Machine `REAL` values are modelled as rationals.
-/

namespace RssReader

/-- JavaScript truthiness of a string value: every string except `""` is truthy. -/
def jsTruthy (s : String) : Bool := s ≠ ""

/-! ## The `articles` table and `DAO.saveArticle`

`CREATE TABLE articles` (db/index.ts lines 31-49) declares `url TEXT UNIQUE`
plus nullable columns.  `id` is the auto-increment rowid; no `saveArticle`
caller supplies it and it plays no role in the claims, so it is omitted
from the row model. -/

/-- One row of the `articles` table.  Every column other than the rowid is
nullable in the schema, including `url`. -/
structure ArticleRow where
  url : Option String
  resolved_url : Option String := none
  original_title : Option String := none
  translated_title : Option String := none
  summary : Option String := none
  short_summary : Option String := none
  content : Option String := none
  image_url : Option String := none
  average_score : Option ℚ := none
  score_novelty : Option ℚ := none
  score_importance : Option ℚ := none
  score_reliability : Option ℚ := none
  score_context_value : Option ℚ := none
  score_thought_provoking : Option ℚ := none
  published_at : Option String := none
  created_at : Option String := none
deriving DecidableEq, Repr

/-- A `Partial<Article>` argument of `DAO.saveArticle`.  The outer `Option`
records whether the key is present in the JavaScript object (`Object.keys`),
the inner value is the SQL value bound for that column (which may itself be
`NULL`, e.g. `published_at: null` in `crawlAndSaveArticle`). -/
structure ArticlePatch where
  url : Option (Option String) := none
  resolved_url : Option (Option String) := none
  original_title : Option (Option String) := none
  translated_title : Option (Option String) := none
  summary : Option (Option String) := none
  short_summary : Option (Option String) := none
  content : Option (Option String) := none
  image_url : Option (Option String) := none
  average_score : Option (Option ℚ) := none
  score_novelty : Option (Option ℚ) := none
  score_importance : Option (Option ℚ) := none
  score_reliability : Option (Option ℚ) := none
  score_context_value : Option (Option ℚ) := none
  score_thought_provoking : Option (Option ℚ) := none
  published_at : Option (Option String) := none
  created_at : Option (Option String) := none
deriving DecidableEq, Repr

/-- Whether the patch supplies at least one column other than `url`.
`saveArticle` builds `updates` from `keys.filter(k => k !== 'url')`; when this
list is empty the generated statement ends in `DO UPDATE SET ` with an empty
assignment list, which SQLite rejects at prepare time. -/
def ArticlePatch.hasNonUrlKey (p : ArticlePatch) : Bool :=
  p.resolved_url.isSome || p.original_title.isSome || p.translated_title.isSome ||
  p.summary.isSome || p.short_summary.isSome || p.content.isSome ||
  p.image_url.isSome || p.average_score.isSome || p.score_novelty.isSome ||
  p.score_importance.isSome || p.score_reliability.isSome ||
  p.score_context_value.isSome || p.score_thought_provoking.isSome ||
  p.published_at.isSome || p.created_at.isSome

/-- The `ON CONFLICT(url) DO UPDATE SET k=excluded.k` merge: every supplied
column other than `url` overwrites the stored value, every omitted column
keeps its prior value (`url` itself is filtered out of the assignment list). -/
def mergeRow (r : ArticleRow) (p : ArticlePatch) : ArticleRow where
  url := r.url
  resolved_url := p.resolved_url.getD r.resolved_url
  original_title := p.original_title.getD r.original_title
  translated_title := p.translated_title.getD r.translated_title
  summary := p.summary.getD r.summary
  short_summary := p.short_summary.getD r.short_summary
  content := p.content.getD r.content
  image_url := p.image_url.getD r.image_url
  average_score := p.average_score.getD r.average_score
  score_novelty := p.score_novelty.getD r.score_novelty
  score_importance := p.score_importance.getD r.score_importance
  score_reliability := p.score_reliability.getD r.score_reliability
  score_context_value := p.score_context_value.getD r.score_context_value
  score_thought_provoking := p.score_thought_provoking.getD r.score_thought_provoking
  published_at := p.published_at.getD r.published_at
  created_at := p.created_at.getD r.created_at

/-- The row created by the `INSERT` branch: supplied columns take their bound
values, omitted columns take the schema defaults (`NULL`, and
`CURRENT_TIMESTAMP` — the `now` argument — for `created_at`). -/
def insertRow (now : String) (p : ArticlePatch) : ArticleRow where
  url := p.url.getD none
  resolved_url := p.resolved_url.getD none
  original_title := p.original_title.getD none
  translated_title := p.translated_title.getD none
  summary := p.summary.getD none
  short_summary := p.short_summary.getD none
  content := p.content.getD none
  image_url := p.image_url.getD none
  average_score := p.average_score.getD none
  score_novelty := p.score_novelty.getD none
  score_importance := p.score_importance.getD none
  score_reliability := p.score_reliability.getD none
  score_context_value := p.score_context_value.getD none
  score_thought_provoking := p.score_thought_provoking.getD none
  published_at := p.published_at.getD none
  created_at := p.created_at.getD (some now)

/-- The `articles` table.  The `UNIQUE` index on `url` is a hypothesis where
needed; row order stands for rowid order. -/
abbrev ArticlesTable := List ArticleRow

/-- Replace the (unique) row whose `url` equals `u` by its merge with `p`. -/
def upsertMerge (u : String) (p : ArticlePatch) : ArticlesTable → ArticlesTable
  | [] => []
  | r :: rest =>
    if r.url = some u then mergeRow r p :: rest else r :: upsertMerge u p rest

/-- Model of `DAO.getArticleByUrl`: `SELECT * FROM articles WHERE url = ?`. -/
def getArticleByUrl (db : ArticlesTable) (u : String) : Option ArticleRow :=
  db.find? (fun r => r.url = some u)

/-- Model of `DAO.saveArticle` (db/index.ts lines 239-246):
`INSERT INTO articles (keys) VALUES (values) ON CONFLICT(url) DO UPDATE SET
k=excluded.k, ...` over the supplied keys.  Returns `none` when the prepared
statement is a syntax error (no non-`url` key supplied, so the assignment
list after `DO UPDATE SET` is empty); the table is unchanged in that case.
A conflict arises exactly when the supplied `url` is non-`NULL` and already
present (`NULL` never collides under a SQLite `UNIQUE` index). -/
def saveArticle (now : String) (db : ArticlesTable) (p : ArticlePatch) :
    Option ArticlesTable :=
  if p.hasNonUrlKey then
    match p.url with
    | some (some u) =>
      if db.any (fun r => r.url = some u) then some (upsertMerge u p db)
      else some (db ++ [insertRow now p])
    | _ => some (db ++ [insertRow now p])
  else none

/-! ## `DAO.getUnprocessedArticles` (db/index.ts lines 286-289)

`SELECT * FROM articles WHERE average_score IS NULL OR length(content) < 200
ORDER BY created_at DESC LIMIT ?`, then `filterBlockedDomains` client-side.
SQLite evaluates the `WHERE` clause in three-valued logic: `length(NULL)`
is `NULL`, `NULL < 200` is `NULL`, and a row is selected only when the
condition evaluates to true. -/

/-- Kleene (SQL) three-valued OR; `none` is SQL `NULL`. -/
def sql3Or : Option Bool → Option Bool → Option Bool
  | some true, _ => some true
  | _, some true => some true
  | some false, some false => some false
  | _, _ => none

/-- SQLite `length(x)` on a nullable TEXT value: `NULL` propagates,
otherwise the number of characters. -/
def sqlLength : Option String → Option Int
  | none => none
  | some s => some s.length

/-- SQLite `x < n` on a nullable numeric value: `NULL` propagates. -/
def sql3Lt (x : Option Int) (n : Int) : Option Bool :=
  x.map (fun v => decide (v < n))

/-- The `WHERE` clause of `getUnprocessedArticles`:
`average_score IS NULL OR length(content) < 200`.  A row is selected iff the
three-valued condition evaluates to true. -/
def unprocessedWhere (r : ArticleRow) : Bool :=
  sql3Or (some r.average_score.isNone) (sql3Lt (sqlLength r.content) 200) == some true

/-- SQLite ordering on the nullable `created_at` column: `NULL` sorts before
every text value, text compares bytewise (for the ASCII ISO timestamps the
code writes, codepoint order coincides). -/
def createdBefore (a b : Option String) : Bool :=
  match a, b with
  | none, none => false
  | none, some _ => true
  | some _, none => false
  | some x, some y => decide (x < y)

/-- Insert a row into a list already sorted by `created_at` descending. -/
def insertByCreatedDesc (r : ArticleRow) : List ArticleRow → List ArticleRow
  | [] => [r]
  | x :: xs =>
    if createdBefore x.created_at r.created_at then r :: x :: xs
    else x :: insertByCreatedDesc r xs

/-- Sort per `ORDER BY created_at DESC` (newest first, `NULL`s last). -/
def sortByCreatedDesc : List ArticleRow → List ArticleRow
  | [] => []
  | r :: rest => insertByCreatedDesc r (sortByCreatedDesc rest)

/-- JS `a || b` on two nullable strings: the left value when it is truthy
(non-null, non-empty), otherwise the right value. -/
def jsOrStr (a b : Option String) : Option String :=
  match a with
  | some s => if jsTruthy s then some s else b
  | none => b

/-- Model of `DAO.filterBlockedDomains` (db/index.ts lines 295-308): when the blocked
list is empty the input is returned unchanged; otherwise an article is kept
unless the hostname of `resolved_url || url` is a blocked domain.  `hostname`
stands for WHATWG `new URL(u).hostname`, with `none` meaning the constructor
throws (the article is then kept, as is an article whose URL is `NULL`,
since `new URL(null)` throws). -/
def filterBlockedDomains (hostname : String → Option String)
    (blocked : List String) (articles : List ArticleRow) : List ArticleRow :=
  if blocked = [] then articles
  else articles.filter (fun a =>
    match jsOrStr a.resolved_url a.url with
    | none => true
    | some u =>
      match hostname u with
      | none => true
      | some d => ¬ blocked.contains d)

/-- Model of `DAO.getUnprocessedArticles`: SQL filter, newest-first order, `LIMIT`,
then the client-side blocked-domain filter (in that order — the limit is
applied before blocked articles are dropped). -/
def getUnprocessedArticles (hostname : String → Option String)
    (blocked : List String) (db : ArticlesTable) (limit : Nat) : List ArticleRow :=
  filterBlockedDomains hostname blocked
    ((sortByCreatedDesc (db.filter unprocessedWhere)).take limit)

/-- Modelled from the spec: an article is *crawlable* iff
`content IS NULL OR length(content) < 200`, read in ordinary two-valued
logic as the spec words it. -/
def specCrawlable (r : ArticleRow) : Bool :=
  match r.content with
  | none => true
  | some c => decide (c.length < 200)

/-- Modelled from the spec: an article is *evaluated* iff
`average_score IS NOT NULL`; unevaluated is its negation. -/
def specUnevaluated (r : ArticleRow) : Bool :=
  r.average_score.isNone

/-! ## rss.ts: aggregator-URL resolution (lines 19-43) and the per-item
skip logic of `collectFeedUrls` (lines 85-108) -/

/-- Whether `needle` occurs as a prefix of `hay` (character lists). -/
def startsWithList : List Char → List Char → Bool
  | _, [] => true
  | [], _ :: _ => false
  | a :: as, b :: bs => a = b && startsWithList as bs

/-- Whether `needle` occurs as a contiguous sublist of `hay`
(JS `String.prototype.includes`). -/
def includesList (needle : List Char) : List Char → Bool
  | [] => startsWithList [] needle
  | c :: t => startsWithList (c :: t) needle || includesList needle t

/-- JS `url.includes(sub)`. -/
def strIncludes (s sub : String) : Bool := includesList sub.data s.data

/-- Model of `isGoogleNewsUrl` (rss.ts lines 19-21). -/
def isGoogleNewsUrl (url : String) : Bool :=
  strIncludes url "news.google.com/rss/articles/"

/-- The capture of the regex match `/\/articles\/([^?]+)/`, scanning like
the JS engine: at each start position, match the literal `/articles/`
(10 characters) and then a maximal *non-empty* run of non-`?` characters;
if the run is empty (the occurrence is immediately followed by `?` or ends
the string) the engine moves on and may match a *later* occurrence of
`/articles/`. -/
def articlesSegmentList : List Char → Option (List Char)
  | [] => none
  | c :: t =>
    if startsWithList (c :: t) "/articles/".data then
      let seg := ((c :: t).drop 10).takeWhile (fun ch => ch ≠ '?')
      if seg.isEmpty then articlesSegmentList t else some seg
    else articlesSegmentList t

/-- The regex capture on a string. -/
def articlesSegment (url : String) : Option (List Char) :=
  articlesSegmentList url.data

/-- Base64url to standard alphabet: `-` becomes `+` and `_` becomes `/`
(the two global `replace` calls of rss.ts line 27). -/
def b64UrlToStd (c : Char) : Char :=
  if c = '-' then '+' else if c = '_' then '/' else c

/-- Value of a standard base64 alphabet character. -/
def b64CharVal (c : Char) : Option Nat :=
  if 'A' ≤ c ∧ c ≤ 'Z' then some (c.toNat - 65)
  else if 'a' ≤ c ∧ c ≤ 'z' then some (c.toNat - 97 + 26)
  else if '0' ≤ c ∧ c ≤ '9' then some (c.toNat - 48 + 52)
  else if c = '+' then some 62
  else if c = '/' then some 63
  else none

/-- Node `Buffer.from(s, 'base64')` character stream: decoding stops at the
first `=` (padding) and every character outside the alphabet is skipped
(Node's decoder is forgiving; it never throws, so the `try` around it in
`extractUrlFromBase64` is never exercised). -/
def b64Sextets (cs : List Char) : List Nat :=
  (cs.takeWhile (fun c => c ≠ '=')).filterMap b64CharVal

/-- Regroup 6-bit values into bytes: 4 sextets give 3 bytes; 3 give 2;
2 give 1; a single leftover sextet yields nothing. -/
def b64Bytes : List Nat → List Nat
  | a :: b :: c :: d :: rest =>
    (a * 4 + b / 16) :: ((b % 16) * 16 + c / 4) :: ((c % 4) * 64 + d) :: b64Bytes rest
  | [a, b] => [a * 4 + b / 16]
  | [a, b, c] => [a * 4 + b / 16, (b % 16) * 16 + c / 4]
  | _ => []

/-- U+FFFD, the replacement character. -/
def repChar : Char := Char.ofNat 0xFFFD

/-- Whether a byte is a UTF-8 continuation byte. -/
def isCont (b : Nat) : Bool := 0x80 ≤ b && b < 0xC0

/-- Scalar value of a two-byte UTF-8 sequence. -/
def cp2 (b b2 : Nat) : Nat := (b - 0xC0) * 64 + (b2 - 0x80)

/-- Scalar value of a three-byte UTF-8 sequence. -/
def cp3 (b b2 b3 : Nat) : Nat := (b - 0xE0) * 4096 + (b2 - 0x80) * 64 + (b3 - 0x80)

/-- Scalar value of a four-byte UTF-8 sequence. -/
def cp4 (b b2 b3 b4 : Nat) : Nat :=
  (b - 0xF0) * 262144 + (b2 - 0x80) * 4096 + (b3 - 0x80) * 64 + (b4 - 0x80)

/-- Validity of a three-byte sequence: continuations, not overlong, and not
a surrogate. -/
def valid3 (b b2 b3 : Nat) : Bool :=
  isCont b2 && isCont b3 && 0x800 ≤ cp3 b b2 b3 &&
    ¬ (0xD800 ≤ cp3 b b2 b3 && cp3 b b2 b3 ≤ 0xDFFF)

/-- Validity of a four-byte sequence: continuations, not overlong, in range. -/
def valid4 (b b2 b3 b4 : Nat) : Bool :=
  isCont b2 && isCont b3 && isCont b4 &&
    0x10000 ≤ cp4 b b2 b3 b4 && cp4 b b2 b3 b4 ≤ 0x10FFFF

/-- Decode a byte sequence as UTF-8 (`buffer.toString('utf-8')`): valid
sequences decode to their scalar value; an invalid lead or an incomplete /
overlong / surrogate sequence yields U+FFFD and decoding resumes after the
offending lead byte (the exact replacement-character count of Node's decoder
on malformed input is not load-bearing for any claim). -/
def utf8Decode : List Nat → List Char
  | [] => []
  | [b] => if b < 0x80 then [Char.ofNat b] else [repChar]
  | [b, b2] =>
    if b < 0x80 then Char.ofNat b :: utf8Decode [b2]
    else if 0xC2 ≤ b && b < 0xE0 && isCont b2 then [Char.ofNat (cp2 b b2)]
    else repChar :: utf8Decode [b2]
  | [b, b2, b3] =>
    if b < 0x80 then Char.ofNat b :: utf8Decode [b2, b3]
    else if 0xC2 ≤ b && b < 0xE0 && isCont b2 then Char.ofNat (cp2 b b2) :: utf8Decode [b3]
    else if 0xE0 ≤ b && b < 0xF0 && valid3 b b2 b3 then [Char.ofNat (cp3 b b2 b3)]
    else repChar :: utf8Decode [b2, b3]
  | b :: b2 :: b3 :: b4 :: rest =>
    if b < 0x80 then Char.ofNat b :: utf8Decode (b2 :: b3 :: b4 :: rest)
    else if 0xC2 ≤ b && b < 0xE0 && isCont b2 then
      Char.ofNat (cp2 b b2) :: utf8Decode (b3 :: b4 :: rest)
    else if 0xE0 ≤ b && b < 0xF0 && valid3 b b2 b3 then
      Char.ofNat (cp3 b b2 b3) :: utf8Decode (b4 :: rest)
    else if 0xF0 ≤ b && b < 0xF5 && valid4 b b2 b3 b4 then
      Char.ofNat (cp4 b b2 b3 b4) :: utf8Decode rest
    else repChar :: utf8Decode (b2 :: b3 :: b4 :: rest)

/-- JavaScript whitespace (the set matched by the regex class `\s`, which
coincides with the set removed by `String.prototype.trim`): tab, line
terminators, form/vertical feed, space, NBSP, the Unicode space separators,
and the BOM. -/
def jsWhitespace (c : Char) : Bool :=
  let n := c.toNat
  n = 0x09 || n = 0x0A || n = 0x0B || n = 0x0C || n = 0x0D || n = 0x20 ||
  n = 0xA0 || n = 0x1680 || (0x2000 ≤ n && n ≤ 0x200A) || n = 0x2028 ||
  n = 0x2029 || n = 0x202F || n = 0x205F || n = 0x3000 || n = 0xFEFF

/-- JS `String.prototype.trim`: strip JS whitespace from both ends. -/
def jsTrim (s : String) : String :=
  String.mk (((s.data.dropWhile jsWhitespace).reverse.dropWhile jsWhitespace).reverse)

/-- The character class of the regex `[^\x00-\x1f\s]`: neither a C0 control
character nor JS regex whitespace (`\s`). -/
def urlBodyChar (c : Char) : Bool :=
  ¬ (c.toNat ≤ 0x1F || jsWhitespace c)

/-- First match of `/https?:\/\/[^\x00-\x1f\s]+/`: scanning left to right,
at each position try `https://` then `http://`, then take the maximal
non-empty run of `urlBodyChar`s. -/
def httpMatch : List Char → Option String
  | [] => none
  | c :: t =>
    if startsWithList (c :: t) "https://".data then
      let run := ((c :: t).drop 8).takeWhile urlBodyChar
      if run.isEmpty then httpMatch t else some (String.mk ("https://".data ++ run))
    else if startsWithList (c :: t) "http://".data then
      let run := ((c :: t).drop 7).takeWhile urlBodyChar
      if run.isEmpty then httpMatch t else some (String.mk ("http://".data ++ run))
    else httpMatch t

/-- Model of `extractUrlFromBase64` (rss.ts lines 23-36): take the `/articles/…`
segment, map base64url to standard, pad with `=` to a multiple of four,
decode as base64 then UTF-8, and return the first embedded `http(s)://…`
match, if any. -/
def extractUrlFromBase64 (url : String) : Option String :=
  match articlesSegment url with
  | none => none
  | some seg =>
    let standard := seg.map b64UrlToStd
    let padded := standard ++ List.replicate ((4 - standard.length % 4) % 4) '='
    httpMatch (utf8Decode (b64Bytes (b64Sextets padded)))

/-- Model of `resolveUrl` (rss.ts lines 38-43).  `browserResolve` stands for
`fetchFinalUrl`; it is consulted only on the fallback path.  (The JS guard
`if (extracted)` is a truthiness test, but a successful extraction always
starts with `http`, hence is never the empty string.) -/
def resolveUrl (browserResolve : String → String) (url : String) : String :=
  if ¬ isGoogleNewsUrl url then url
  else
    match extractUrlFromBase64 url with
    | some extracted => extracted
    | none => browserResolve url

/-- One RSS feed item (only the fields `collectFeedUrls` reads). -/
structure FeedItem where
  link : String
  pubDate : Option String := none
  title : Option String := none
deriving DecidableEq, Repr

/-- A collected article, as emitted by `collectFeedUrls`. -/
structure CollectedArticle where
  url : String
  resolvedUrl : String
  pubDate : Option String
  feedSourceName : String
  feedSourceId : Nat
  title : Option String
deriving DecidableEq, Repr

/-- The skip test of `collectFeedUrls` (rss.ts line 90):
`existing?.content && existing.content.length > 200 &&
existing.average_score !== null` — note the strict `> 200`. -/
def fullyProcessedSkip (db : ArticlesTable) (link : String) : Bool :=
  match getArticleByUrl db link with
  | none => false
  | some a =>
    (match a.content with
     | some c => jsTruthy c && decide (200 < c.length)
     | none => false) && a.average_score.isSome

/-- Processing of one feed item with a non-empty link (rss.ts lines 87-108):
skip (`null`) when the store already holds a fully-processed record,
otherwise resolve the URL and emit a `CollectedArticle`; a rejected
resolution (`resolve` returns `none`, the `catch` branch) also yields
`null`. -/
def collectItem (db : ArticlesTable) (resolve : String → Option String)
    (sourceId : Nat) (sourceName : String) (item : FeedItem) :
    Option CollectedArticle :=
  if fullyProcessedSkip db item.link then none
  else
    match resolve item.link with
    | some resolvedUrl =>
      some { url := item.link, resolvedUrl := resolvedUrl, pubDate := item.pubDate,
             feedSourceName := sourceName, feedSourceId := sourceId,
             title := item.title }
    | none => none

/-- Modelled from the spec: "skip if the Store already has a fully processed
record (`content ≥ 200 chars` and `average_score ≠ null`)". -/
def specFullyProcessed (db : ArticlesTable) (link : String) : Bool :=
  match getArticleByUrl db link with
  | none => false
  | some a =>
    (match a.content with
     | some c => decide (200 ≤ c.length)
     | none => false) && a.average_score.isSome

/-! ## browser.ts: `fetchFinalUrl` (lines 36-69)

Navigation is external: `attempts i` is the outcome of the `i`-th loop
iteration's body (`getBrowser` + context + `page.goto` + `page.url()`),
either the final page URL or the thrown error's message. -/

/-- Outcome of one attempt of the browser resolver's retry loop. -/
inductive AttemptRes where
  | ok (finalUrl : String)
  | err (msg : String)
deriving DecidableEq, Repr

/-- Model of `fetchFinalUrl`: try the body; on an error whose message includes
`has been closed`, reset the browser and retry exactly once; any other
error — and an error on the second attempt — logs and returns the original
`url`.  The function always returns a string (it never rethrows). -/
def fetchFinalUrl (url : String) (attempts : Nat → AttemptRes) : String :=
  match attempts 0 with
  | .ok finalUrl => finalUrl
  | .err msg =>
    if strIncludes msg "has been closed" then
      match attempts 1 with
      | .ok finalUrl => finalUrl
      | .err _ => url
    else url

/-! ## evaluator.ts, discord.ts, article.ts: the evaluate / notify pipeline -/

/-- The `configs` singleton row (db/index.ts lines 9-14, 131-136). -/
structure ConfigRow where
  open_router_api_key : Option String := none
  discord_webhook_url : Option String := none
  score_threshold : ℚ := 3.5
deriving DecidableEq, Repr

/-- The five integer scores of an evaluation. -/
structure EvalScores where
  novelty : ℚ
  importance : ℚ
  reliability : ℚ
  contextValue : ℚ
  thoughtProvoking : ℚ
deriving DecidableEq, Repr

/-- The `EvaluationResult` record: the parsed LLM response plus the computed average. -/
structure EvaluationResult where
  translatedTitle : String
  summary : String
  shortSummary : String
  scores : EvalScores
  averageScore : ℚ
deriving DecidableEq, Repr

/-- JS truthiness of a nullable string (`!config.open_router_api_key` is
true for both `null` and `""`). -/
def jsTruthyOpt : Option String → Bool
  | none => false
  | some s => jsTruthy s

/-- Model of `evaluateArticle` (backend evaluator.ts lines 44-107): with no API key
the LLM is never called and `null` is returned; otherwise the outcome of the
chat-completion round trip on the article's content is external
(`llm content = none` models a transport error, an unparsable response, or a
response whose shape breaks the score arithmetic — every failure path of the
`try` returns `null`). -/
def evaluateArticle (cfg : ConfigRow) (llm : String → Option EvaluationResult)
    (content : String) : Option EvaluationResult :=
  if jsTruthyOpt cfg.open_router_api_key then llm content else none

/-- Number of webhook POSTs performed by `sendDiscordNotification`
(discord.ts lines 5-38): zero when no webhook URL is configured (`null` or
`""`), zero when `averageScore < score_threshold`, otherwise exactly one
(the `catch` around `axios.post` swallows delivery errors; the post is
still attempted once). -/
def sendDiscordNotificationPosts (cfg : ConfigRow) (ev : EvaluationResult) : Nat :=
  if ¬ jsTruthyOpt cfg.discord_webhook_url then 0
  else if ev.averageScore < cfg.score_threshold then 0
  else 1

/-- Observable outcome of one run of an evaluation-pipeline function:
the returned flag, the articles table afterwards, the list of contents
passed to `evaluateArticle`, and the number of webhook POSTs. -/
structure PipelineOutcome where
  ok : Bool
  db : ArticlesTable
  evalCalls : List String := []
  posts : Nat := 0
deriving DecidableEq, Repr

/-- The score patch written by `evaluateExistingArticle` (article.ts
lines 261-272) and by step 4 of `fullyProcessAndSaveArticle`. -/
def scorePatch (u : Option String) (ev : EvaluationResult) : ArticlePatch where
  url := some u
  translated_title := some (some ev.translatedTitle)
  summary := some (some ev.summary)
  short_summary := some (some ev.shortSummary)
  score_novelty := some (some ev.scores.novelty)
  score_importance := some (some ev.scores.importance)
  score_reliability := some (some ev.scores.reliability)
  score_context_value := some (some ev.scores.contextValue)
  score_thought_provoking := some (some ev.scores.thoughtProvoking)
  average_score := some (some ev.averageScore)

/-- Model of `evaluateExistingArticle` (article.ts lines 237-292): look the article
up by `url`; bail out unless it has truthy content of at least 200
characters; report success without work when already evaluated; otherwise
run `evaluateArticle`, upsert the scores, notify, and clear the article's
error record.  A `saveArticle` failure is caught by the outer `catch`
(phase=EVAL error, `false`). -/
def evaluateExistingArticle (cfg : ConfigRow) (llm : String → Option EvaluationResult)
    (now : String) (db : ArticlesTable) (url : String) : PipelineOutcome :=
  match getArticleByUrl db url with
  | none => { ok := false, db := db }
  | some article =>
    match article.content with
    | none => { ok := false, db := db }
    | some c =>
      if ¬ jsTruthy c then { ok := false, db := db }
      else if c.length < 200 then { ok := false, db := db }
      else if article.average_score.isSome then { ok := true, db := db }
      else
        match evaluateArticle cfg llm c with
        | none => { ok := false, db := db, evalCalls := [c] }
        | some ev =>
          match saveArticle now db (scorePatch article.url ev) with
          | none => { ok := false, db := db, evalCalls := [c] }
          | some db' =>
            { ok := true, db := db', evalCalls := [c],
              posts := sendDiscordNotificationPosts cfg ev }

/-- The result record of `processArticle`. -/
structure ProcessedArticle where
  title : String
  content : String
  imageUrl : String
  url : String
  resolvedUrl : String
deriving DecidableEq, Repr

/-- The Readability tail of `processArticle` (article.ts lines 171-188):
reject unless the parse produced a truthy title and truthy text whose
trimmed length is at least 50, and return the trimmed text as `content`
(`none` models the thrown `Readability failed …` error). -/
def processArticleReadability (title textContent : String)
    (imageUrl : Option String) (url finalUrl : String) : Option ProcessedArticle :=
  if ¬ jsTruthy title || ¬ jsTruthy textContent || (jsTrim textContent).length < 50 then none
  else some { title := title, content := jsTrim textContent,
              imageUrl := (jsOrStr imageUrl (some "")).getD "",
              url := url, resolvedUrl := finalUrl }

/-- The crawl patch of step 2 of `fullyProcessAndSaveArticle` (article.ts
lines 306-312). -/
def crawlPatch (p : ProcessedArticle) : ArticlePatch where
  url := some (some p.url)
  resolved_url := some (some p.resolvedUrl)
  original_title := some (some p.title)
  content := some (some p.content)
  image_url := some (some p.imageUrl)

/-- Model of `fullyProcessAndSaveArticle` (article.ts lines 298-375), the synchronous
ingest/retry pipeline: crawl (`crawl = none` models a `processArticle`
throw), save, evaluate the crawled content — whatever its length — then
save scores, notify, and clear the error record.  Every throw lands in the
`catch`, which records an ArticleError and rethrows (`ok := false`). -/
def fullyProcessAndSaveArticle (cfg : ConfigRow) (llm : String → Option EvaluationResult)
    (now : String) (db : ArticlesTable) (crawl : Option ProcessedArticle) :
    PipelineOutcome :=
  match crawl with
  | none => { ok := false, db := db }
  | some p =>
    match saveArticle now db (crawlPatch p) with
    | none => { ok := false, db := db }
    | some db1 =>
      match evaluateArticle cfg llm p.content with
      | none => { ok := false, db := db1, evalCalls := [p.content] }
      | some ev =>
        match saveArticle now db1 { scorePatch (some p.url) ev with
                                    resolved_url := some (some p.resolvedUrl) } with
        | none => { ok := false, db := db1, evalCalls := [p.content] }
        | some db2 =>
          { ok := true, db := db2, evalCalls := [p.content],
            posts := sendDiscordNotificationPosts cfg ev }

/-! ## worker.ts: the cycle's CrawlerStatus handling

The worker's interactions with the `crawler_status` singleton are modelled
as pure state transitions.  External effects (feed fetches, crawling,
evaluation) are summarised by the status patches the `try` block writes and
a `RunOutcome` saying whether the block ran to completion or threw. -/

/-- The `crawler_status` singleton row (db/index.ts lines 62-70). -/
structure CrawlerStatusRow where
  is_crawling : Nat
  last_run : Option String := none
  current_task : Option String := none
  articles_processed : Nat := 0
  last_error : Option String := none
  worker_pid : Option Nat := none
deriving DecidableEq, Repr

/-- A partial update for `DAO.updateCrawlerStatus`: `none` means the field
is absent (`undefined`) and keeps its prior value.  `worker_pid` is doubly
optional because the worker explicitly writes `null` in its teardown. -/
structure StatusPatch where
  is_crawling : Option Nat := none
  last_run : Option String := none
  current_task : Option String := none
  articles_processed : Option Nat := none
  last_error : Option String := none
  worker_pid : Option (Option Nat) := none
deriving DecidableEq, Repr

/-- Model of `DAO.updateCrawlerStatus` (db/index.ts lines 182-203): only the fields
provided in the patch change; the others keep their current values. -/
def updateCrawlerStatus (s : CrawlerStatusRow) (p : StatusPatch) : CrawlerStatusRow where
  is_crawling := p.is_crawling.getD s.is_crawling
  last_run := match p.last_run with | some v => some v | none => s.last_run
  current_task := match p.current_task with | some v => some v | none => s.current_task
  articles_processed := p.articles_processed.getD s.articles_processed
  last_error := match p.last_error with | some v => some v | none => s.last_error
  worker_pid := p.worker_pid.getD s.worker_pid

/-- Whether the `try` block of `main` ran to completion or threw. -/
inductive RunOutcome where
  | ok
  | err (msg : String)
deriving DecidableEq, Repr

/-- One in-`try` status update: every `updateCrawlerStatus` call inside the
worker's `try` block supplies only `current_task` and (sometimes)
`articles_processed` (worker.ts lines 50-52, 62-64, 84-86, 105, 116-118,
132-134). -/
structure TaskPatch where
  current_task : String
  articles_processed : Option Nat := none
deriving DecidableEq, Repr

/-- JS truthiness of the nullable `worker_pid` column: non-null and
non-zero. -/
def jsTruthyPid : Option Nat → Bool
  | none => false
  | some p => p ≠ 0

/-- The body of `main` after the singleton check (worker.ts lines 26-154
plus the top-level `main().catch` at lines 157-160):
take the lease; run the bootstrap section (source seeding and
`getConfig`, lines 33-44) — a throw there skips the `try`/`finally`
entirely and lands in `main().catch`, which clears `is_crawling` and sets
`last_error` but leaves `worker_pid` untouched; otherwise run the `try`
block's status updates, then the `finally` teardown, and, when the `try`
threw, the rethrown error again reaches `main().catch`. -/
def mainCycleBody (pid : Nat) (nowIso : String) (bootstrap : RunOutcome)
    (phaseTasks : List TaskPatch) (phases : RunOutcome)
    (s0 : CrawlerStatusRow) : CrawlerStatusRow :=
  let s1 := updateCrawlerStatus s0
    { is_crawling := some 1, worker_pid := some (some pid),
      last_run := some nowIso, current_task := some "Initializing pipeline..." }
  match bootstrap with
  | .err m => updateCrawlerStatus s1 { is_crawling := some 0, last_error := some m }
  | .ok =>
    let sT := phaseTasks.foldl
      (fun s t => updateCrawlerStatus s
        { current_task := some t.current_task,
          articles_processed := t.articles_processed }) s1
    let sF := updateCrawlerStatus sT
      { is_crawling := some 0, current_task := some "Idle",
        worker_pid := some none }
    match phases with
    | .ok => sF
    | .err m => updateCrawlerStatus sF { is_crawling := some 0, last_error := some m }

/-- The early-exit test of the singleton check (worker.ts lines 12-24):
another live worker (neither this process nor its parent) already holds the
lease. -/
def anotherWorkerAlive (pid ppid : Nat) (alive : Nat → Bool)
    (s0 : CrawlerStatusRow) : Bool :=
  s0.is_crawling = 1 && jsTruthyPid s0.worker_pid &&
    match s0.worker_pid with
    | some p => alive p && p ≠ pid && p ≠ ppid
    | none => false

/-- Model of `main` (worker.ts lines 8-160): exit immediately — leaving the status
untouched — when another live worker holds the lease, otherwise run the
cycle body. -/
def mainCycle (pid ppid : Nat) (alive : Nat → Bool) (nowIso : String)
    (bootstrap : RunOutcome) (phaseTasks : List TaskPatch) (phases : RunOutcome)
    (s0 : CrawlerStatusRow) : CrawlerStatusRow :=
  if anotherWorkerAlive pid ppid alive s0 then s0
  else mainCycleBody pid nowIso bootstrap phaseTasks phases s0

/-! ## domain-queue.ts: `DomainQueueManager`

JavaScript `Map`s preserve insertion order; they are modelled as
association lists where `alistSet` replaces an existing binding in place
and appends a new key at the end, and `alistGet` returns the binding's
value.  Time is the `Int` value of `Date.now()` captured at the head of
`getNextAvailable`; no monotonicity is assumed. -/

/-- JS `Map.prototype.get`. -/
def alistGet {β : Type} (m : List (String × β)) (k : String) : Option β :=
  (m.find? (fun e => e.1 = k)).map (fun e => e.2)

/-- JS `Map.prototype.set`: update in place, or append a new binding. -/
def alistSet {β : Type} : List (String × β) → String → β → List (String × β)
  | [], k, v => [(k, v)]
  | (k', v') :: rest, k, v =>
    if k' = k then (k, v) :: rest else (k', v') :: alistSet rest k v

/-- A queued article (domain-queue.ts lines 11-18). -/
structure QueuedArticle where
  url : String
  resolvedUrl : String
  pubDate : Option String := none
  feedSourceName : String := ""
  title : Option String := none
  rssItemJson : Option String := none
deriving DecidableEq, Repr

/-- The `DomainQueueConfig` record (domain-queue.ts lines 20-24). -/
structure DomainQueueConfig where
  maxConcurrentPerDomain : Nat
  maxTotalConcurrent : Nat
  domainDelayMs : Int
deriving DecidableEq, Repr

/-- Model of `extractDomain` (domain-queue.ts lines 47-55): hostname of
`resolvedUrl || url`, or `unknown` when URL parsing throws.  `hostname`
stands for WHATWG `new URL(u).hostname`. -/
def extractDomain (hostname : String → Option String) (a : QueuedArticle) : String :=
  let u := if jsTruthy a.resolvedUrl then a.resolvedUrl else a.url
  match hostname u with
  | some h => h
  | none => "unknown"

/-- The mutable state of a `DomainQueueManager` (domain-queue.ts
lines 33-36). -/
structure DQState where
  queues : List (String × List QueuedArticle)
  activeCounts : List (String × Nat)
  lastRequestTime : List (String × Int)
  totalActive : Nat
deriving DecidableEq, Repr

/-- A fresh manager. -/
def DQState.init : DQState :=
  { queues := [], activeCounts := [], lastRequestTime := [], totalActive := 0 }

/-- Add one article (the loop body of `addArticles`, domain-queue.ts
lines 60-69): create the domain's queue and zero counter on first sight,
then push. -/
def addArticle (hostname : String → Option String) (s : DQState)
    (a : QueuedArticle) : DQState :=
  let d := extractDomain hostname a
  let s' :=
    if (alistGet s.queues d).isSome then s
    else { s with queues := alistSet s.queues d [],
                  activeCounts := alistSet s.activeCounts d 0 }
  { s' with queues := alistSet s'.queues d ((alistGet s'.queues d).getD [] ++ [a]) }

/-- Model of `addArticles`. -/
def addArticles (hostname : String → Option String) (s : DQState)
    (articles : List QueuedArticle) : DQState :=
  articles.foldl (addArticle hostname) s

/-- The scan of `getNextAvailable` (domain-queue.ts lines 82-98): walk the
queues in insertion order and pop the head of the first domain that has a
non-empty queue, spare per-domain capacity, and whose delay has elapsed;
returns the domain, the article, and the queues map with that head
removed. -/
def findDispatch (cfg : DomainQueueConfig) (ac : List (String × Nat))
    (lrt : List (String × Int)) (now : Int) :
    List (String × List QueuedArticle) →
      Option (String × QueuedArticle × List (String × List QueuedArticle))
  | [] => none
  | (d, q) :: rest =>
    match q with
    | [] => (findDispatch cfg ac lrt now rest).map (fun r => (r.1, r.2.1, (d, q) :: r.2.2))
    | a :: q' =>
      if (alistGet ac d).getD 0 ≥ cfg.maxConcurrentPerDomain then
        (findDispatch cfg ac lrt now rest).map (fun r => (r.1, r.2.1, (d, q) :: r.2.2))
      else if now - (alistGet lrt d).getD 0 < cfg.domainDelayMs then
        (findDispatch cfg ac lrt now rest).map (fun r => (r.1, r.2.1, (d, q) :: r.2.2))
      else some (d, a, (d, q') :: rest)

/-- Model of `getNextAvailable` (domain-queue.ts lines 74-101): `null` at the global
cap; otherwise dispatch via the scan, incrementing the domain's counter and
the global counter and stamping the domain's last-request time with `now`. -/
def getNextAvailable (cfg : DomainQueueConfig) (s : DQState) (now : Int) :
    Option (QueuedArticle × DQState) :=
  if s.totalActive ≥ cfg.maxTotalConcurrent then none
  else
    match findDispatch cfg s.activeCounts s.lastRequestTime now s.queues with
    | none => none
    | some (d, a, queues') =>
      some (a,
        { queues := queues',
          activeCounts := alistSet s.activeCounts d ((alistGet s.activeCounts d).getD 0 + 1),
          lastRequestTime := alistSet s.lastRequestTime d now,
          totalActive := s.totalActive + 1 })

/-- Model of `markComplete` (domain-queue.ts lines 134-139): decrement the article's
domain counter and the global counter; `Math.max(0, n - 1)` on integers is
truncated subtraction on `Nat`. -/
def markComplete (hostname : String → Option String) (s : DQState)
    (a : QueuedArticle) : DQState :=
  let d := extractDomain hostname a
  let current := (alistGet s.activeCounts d).getD 1
  { s with activeCounts := alistSet s.activeCounts d (current - 1),
           totalActive := s.totalActive - 1 }

/-- Reachable configurations of a `DomainQueueManager` together with two
ghost components: `g`, the multiset (as a list) of dispatched articles not
yet marked complete, and `log`, the chronological record of dispatches as
(domain, `Date.now()` at dispatch) pairs.  `complete` steps are restricted
to articles actually in flight — the claims' "each markComplete matches one
prior getNextAvailable dispatch". -/
inductive DQReach (hostname : String → Option String) (cfg : DomainQueueConfig) :
    DQState → List QueuedArticle → List (String × Int) → Prop where
  | init : DQReach hostname cfg DQState.init [] []
  | add {s g log} (articles : List QueuedArticle) :
      DQReach hostname cfg s g log →
      DQReach hostname cfg (addArticles hostname s articles) g log
  | dispatch {s g log a s'} (now : Int) :
      DQReach hostname cfg s g log →
      getNextAvailable cfg s now = some (a, s') →
      DQReach hostname cfg s' (a :: g) (log ++ [(extractDomain hostname a, now)])
  | complete {s g log a} :
      DQReach hostname cfg s g log →
      a ∈ g →
      DQReach hostname cfg (markComplete hostname s a) (g.erase a) log

/-- The dispatch times recorded for one domain, in order. -/
def domainTimes (d : String) (log : List (String × Int)) : List Int :=
  (log.filter (fun e => e.1 = d)).map (fun e => e.2)

/-! ### Association-list lemmas -/

theorem alistGet_nil {β : Type} (k : String) : alistGet ([] : List (String × β)) k = none := rfl

theorem alistGet_cons {β : Type} (e : String × β) (m : List (String × β)) (k : String) :
    alistGet (e :: m) k = if e.1 = k then some e.2 else alistGet m k := by
  by_cases h : e.1 = k <;> simp [alistGet, List.find?_cons, h]

theorem alistSet_cons {β : Type} (e : String × β) (m : List (String × β)) (k : String) (v : β) :
    alistSet (e :: m) k v = if e.1 = k then (k, v) :: m else e :: alistSet m k v := by
  obtain ⟨e1, e2⟩ := e
  rfl

theorem alistGet_set_self {β : Type} (m : List (String × β)) (k : String) (v : β) :
    alistGet (alistSet m k v) k = some v := by
  induction m with
  | nil => simp [alistSet, alistGet_cons]
  | cons e rest ih =>
    rw [alistSet_cons]
    by_cases h : e.1 = k
    · rw [if_pos h, alistGet_cons]
      simp
    · rw [if_neg h, alistGet_cons, if_neg h]
      exact ih

theorem alistGet_set_ne {β : Type} (m : List (String × β)) (k : String) (v : β)
    (k' : String) (h : k' ≠ k) : alistGet (alistSet m k v) k' = alistGet m k' := by
  induction m with
  | nil =>
    rw [show alistSet ([] : List (String × β)) k v = [(k, v)] from rfl,
        alistGet_cons, if_neg (fun hh => h hh.symm)]
  | cons e rest ih =>
    rw [alistSet_cons]
    by_cases he : e.1 = k
    · rw [if_pos he, alistGet_cons, if_neg (fun hh => h hh.symm), alistGet_cons, he,
          if_neg (fun hh => h hh.symm)]
    · rw [if_neg he, alistGet_cons, alistGet_cons]
      by_cases h2 : e.1 = k'
      · rw [if_pos h2, if_pos h2]
      · rw [if_neg h2, if_neg h2]
        exact ih

theorem alistSet_sum (m : List (String × Nat)) (k : String) (v : Nat) :
    ((alistSet m k v).map (fun e => e.2)).sum + (alistGet m k).getD 0
      = (m.map (fun e => e.2)).sum + v := by
  induction m with
  | nil => simp [alistSet, alistGet_nil]
  | cons e rest ih =>
    rw [alistSet_cons]
    by_cases h : e.1 = k
    · rw [if_pos h, alistGet_cons, if_pos h]
      simp only [List.map_cons, List.sum_cons, Option.getD_some]
      omega
    · rw [if_neg h, alistGet_cons, if_neg h]
      simp only [List.map_cons, List.sum_cons]
      omega

theorem mem_alistSet {β : Type} (m : List (String × β)) (k : String) (v : β)
    (e : String × β) (he : e ∈ alistSet m k v) : e ∈ m ∨ e = (k, v) := by
  induction m with
  | nil => simpa [alistSet] using he
  | cons x rest ih =>
    rw [alistSet_cons] at he
    by_cases h : x.1 = k
    · rw [if_pos h] at he
      rcases List.mem_cons.mp he with h1 | h1
      · exact Or.inr h1
      · exact Or.inl (List.mem_cons_of_mem _ h1)
    · rw [if_neg h] at he
      rcases List.mem_cons.mp he with h1 | h1
      · exact Or.inl (h1 ▸ List.mem_cons_self _ _)
      · rcases ih h1 with h2 | h2
        · exact Or.inl (List.mem_cons_of_mem _ h2)
        · exact Or.inr h2

theorem alistGet_some_mem {β : Type} (m : List (String × β)) (k : String) (v : β)
    (h : alistGet m k = some v) : (k, v) ∈ m := by
  induction m with
  | nil => simp [alistGet_nil] at h
  | cons e rest ih =>
    rw [alistGet_cons] at h
    by_cases he : e.1 = k
    · rw [if_pos he] at h
      obtain ⟨e1, e2⟩ := e
      cases he
      cases Option.some.inj h
      exact List.mem_cons_self _ _
    · exact List.mem_cons_of_mem _ (ih (by rwa [if_neg he] at h))

theorem alistGet_isSome_set {β : Type} (m : List (String × β)) (k : String) (v : β)
    (k' : String) (h : (alistGet m k').isSome = true) :
    (alistGet (alistSet m k v) k').isSome = true := by
  by_cases hk : k' = k
  · subst hk; simp [alistGet_set_self]
  · rwa [alistGet_set_ne m k v k' hk]

theorem alistGet_isSome_eq_of_keys {β γ : Type} :
    ∀ (m₁ : List (String × β)) (m₂ : List (String × γ)),
      m₁.map (fun e => e.1) = m₂.map (fun e => e.1) →
      ∀ k, (alistGet m₁ k).isSome = (alistGet m₂ k).isSome
  | [], [], _, k => by simp [alistGet_nil]
  | [], e :: m, h, k => by simp at h
  | e :: m, [], h, k => by simp at h
  | e₁ :: m₁, e₂ :: m₂, h, k => by
    simp only [List.map_cons, List.cons.injEq] at h
    rw [alistGet_cons, alistGet_cons, h.1]
    by_cases hk : e₂.1 = k
    · simp [hk]
    · simp only [hk, if_false]
      exact alistGet_isSome_eq_of_keys m₁ m₂ h.2 k

theorem alistSet_alistSet {β : Type} (m : List (String × β)) (k : String) (v w : β) :
    alistSet (alistSet m k v) k w = alistSet m k w := by
  induction m with
  | nil => simp [alistSet]
  | cons e rest ih =>
    rw [alistSet_cons]
    by_cases h : e.1 = k
    · rw [if_pos h, alistSet_cons, if_pos rfl, alistSet_cons, if_pos h]
    · rw [if_neg h, alistSet_cons, if_neg h, alistSet_cons, if_neg h, ih]

/-! ### The scheduler invariant

`g` is the in-flight multiset, `log` the dispatch log.  The components tie
the concrete counters to the ghost state; the claims' conclusions are
projections of this invariant. -/

structure DQInv (hostname : String → Option String) (cfg : DomainQueueConfig)
    (s : DQState) (g : List QueuedArticle) (log : List (String × Int)) : Prop where
  countEq : ∀ d, (alistGet s.activeCounts d).getD 0
      = (g.filter (fun a => extractDomain hostname a = d)).length
  sumEq : (s.activeCounts.map (fun e => e.2)).sum = s.totalActive
  totalLen : s.totalActive = g.length
  totalLe : s.totalActive ≤ cfg.maxTotalConcurrent
  perLe : ∀ d, (alistGet s.activeCounts d).getD 0 ≤ cfg.maxConcurrentPerDomain
  queuesDom : ∀ e ∈ s.queues, ∀ a ∈ e.2, extractDomain hostname a = e.1
  inflightKeys : ∀ a ∈ g, (alistGet s.queues (extractDomain hostname a)).isSome = true
  lastEq : ∀ d, (alistGet s.lastRequestTime d).getD 0 = (domainTimes d log).getLastD 0
  gaps : ∀ d, List.Chain' (fun t₁ t₂ => t₁ + cfg.domainDelayMs ≤ t₂) (domainTimes d log)

theorem DQInv.init (hostname : String → Option String) (cfg : DomainQueueConfig) :
    DQInv hostname cfg DQState.init [] [] := by
  refine ⟨?_, rfl, rfl, Nat.zero_le _, ?_, ?_, ?_, ?_, ?_⟩ <;>
    simp [DQState.init, alistGet_nil, domainTimes]

/-- The property established by `findDispatch_spec` for a queues list `qs`
scanned with counters `ac`, stamps `lrt`, and clock `now`. -/
def DispatchSpec (cfg : DomainQueueConfig) (ac : List (String × Nat))
    (lrt : List (String × Int)) (now : Int)
    (qs : List (String × List QueuedArticle))
    (d : String) (a : QueuedArticle) (qs' : List (String × List QueuedArticle)) : Prop :=
  ∃ pre q' post, qs = pre ++ (d, a :: q') :: post ∧
    qs' = pre ++ (d, q') :: post ∧
    (alistGet ac d).getD 0 < cfg.maxConcurrentPerDomain ∧
    cfg.domainDelayMs ≤ now - (alistGet lrt d).getD 0

theorem dispatchSpec_skip {cfg : DomainQueueConfig} {ac : List (String × Nat)}
    {lrt : List (String × Int)} {now : Int} {rest : List (String × List QueuedArticle)}
    {e : String × List QueuedArticle} {d : String} {a : QueuedArticle}
    {qs' : List (String × List QueuedArticle)}
    (h : (findDispatch cfg ac lrt now rest).map (fun r => (r.1, r.2.1, e :: r.2.2))
          = some (d, a, qs'))
    (ih : ∀ {d a qs'}, findDispatch cfg ac lrt now rest = some (d, a, qs') →
          DispatchSpec cfg ac lrt now rest d a qs') :
    DispatchSpec cfg ac lrt now (e :: rest) d a qs' := by
  obtain ⟨r, hr, heq⟩ := Option.map_eq_some'.mp h
  obtain ⟨rd, ra, rq⟩ := r
  cases heq
  obtain ⟨pre, q', post, hq1, hq2, hc1, hc2⟩ := ih hr
  exact ⟨e :: pre, q', post, by simp [hq1], by simp [hq2], hc1, hc2⟩

theorem findDispatch_spec (cfg : DomainQueueConfig) (ac : List (String × Nat))
    (lrt : List (String × Int)) (now : Int)
    (queues : List (String × List QueuedArticle)) :
    ∀ {d a qs'}, findDispatch cfg ac lrt now queues = some (d, a, qs') →
      DispatchSpec cfg ac lrt now queues d a qs' := by
  induction queues with
  | nil => intro d a qs' h; simp [findDispatch] at h
  | cons e rest ih =>
    intro d a qs' h
    obtain ⟨d0, q0⟩ := e
    cases q0 with
    | nil =>
      exact dispatchSpec_skip (by exact h) (fun {d a qs'} hh => ih hh)
    | cons a0 q0' =>
      by_cases h1 : (alistGet ac d0).getD 0 ≥ cfg.maxConcurrentPerDomain
      · rw [show findDispatch cfg ac lrt now ((d0, a0 :: q0') :: rest)
              = (findDispatch cfg ac lrt now rest).map
                  (fun r => (r.1, r.2.1, (d0, a0 :: q0') :: r.2.2)) from by
            simp [findDispatch, h1]] at h
        exact dispatchSpec_skip h (fun {d a qs'} hh => ih hh)
      · by_cases h2 : now - (alistGet lrt d0).getD 0 < cfg.domainDelayMs
        · rw [show findDispatch cfg ac lrt now ((d0, a0 :: q0') :: rest)
                = (findDispatch cfg ac lrt now rest).map
                    (fun r => (r.1, r.2.1, (d0, a0 :: q0') :: r.2.2)) from by
              simp [findDispatch, h1, h2]] at h
          exact dispatchSpec_skip h (fun {d a qs'} hh => ih hh)
        · rw [show findDispatch cfg ac lrt now ((d0, a0 :: q0') :: rest)
                = some (d0, a0, (d0, q0') :: rest) from by
              simp [findDispatch, h1, h2]] at h
          obtain ⟨hd, ha, hq⟩ : d0 = d ∧ a0 = a ∧ (d0, q0') :: rest = qs' := by
            simpa using h
          subst hd; subst ha; subst hq
          exact ⟨[], q0', rest, rfl, rfl, Nat.lt_of_not_le h1, Int.not_lt.mp h2⟩

theorem addArticle_of_mem {hostname : String → Option String} {s : DQState}
    {a : QueuedArticle} (h : (alistGet s.queues (extractDomain hostname a)).isSome = true) :
    addArticle hostname s a =
      { s with queues := alistSet s.queues (extractDomain hostname a) ((alistGet s.queues (extractDomain hostname a)).getD [] ++ [a]) } := by
  simp [addArticle, h]

theorem addArticle_of_not_mem {hostname : String → Option String} {s : DQState}
    {a : QueuedArticle} (h : (alistGet s.queues (extractDomain hostname a)).isSome = false) :
    addArticle hostname s a =
      { s with queues := alistSet s.queues (extractDomain hostname a) [a],
               activeCounts := alistSet s.activeCounts (extractDomain hostname a) 0 } := by
  simp [addArticle, h, alistGet_set_self, alistSet_alistSet]

theorem filter_len_zero_of_no_key {hostname : String → Option String}
    {g : List QueuedArticle} {queues : List (String × List QueuedArticle)} {d : String}
    (hkeys : ∀ a ∈ g, (alistGet queues (extractDomain hostname a)).isSome = true)
    (hnone : (alistGet queues d).isSome = false) :
    (g.filter (fun a => extractDomain hostname a = d)).length = 0 := by
  rw [List.length_eq_zero, List.filter_eq_nil_iff]
  intro a ha hd
  have hd' : extractDomain hostname a = d := by simpa using hd
  have h2 := hkeys a ha
  rw [hd', hnone] at h2
  exact Bool.false_ne_true h2

theorem addArticle_inv {hostname : String → Option String} {cfg : DomainQueueConfig}
    {s : DQState} {g : List QueuedArticle} {log : List (String × Int)}
    (a : QueuedArticle) (inv : DQInv hostname cfg s g log) :
    DQInv hostname cfg (addArticle hostname s a) g log := by
  cases hmem : (alistGet s.queues (extractDomain hostname a)).isSome with
  | true =>
    rw [addArticle_of_mem hmem]
    obtain ⟨q0, hq0⟩ := Option.isSome_iff_exists.mp hmem
    refine ⟨inv.countEq, inv.sumEq, inv.totalLen, inv.totalLe, inv.perLe, ?_, ?_,
      inv.lastEq, inv.gaps⟩
    · intro e he b hb
      rcases mem_alistSet _ _ _ _ he with h1 | h1
      · exact inv.queuesDom e h1 b hb
      · subst h1
        rw [hq0] at hb
        simp only [Option.getD_some] at hb
        rcases List.mem_append.mp hb with h2 | h2
        · exact inv.queuesDom _ (alistGet_some_mem _ _ _ hq0) b h2
        · simp only [List.mem_singleton] at h2
          subst h2; rfl
    · intro b hb
      exact alistGet_isSome_set _ _ _ _ (inv.inflightKeys b hb)
  | false =>
    rw [addArticle_of_not_mem hmem]
    have hzero : (g.filter (fun b => extractDomain hostname b = extractDomain hostname a)).length = 0 :=
      filter_len_zero_of_no_key inv.inflightKeys hmem
    have hacd : (alistGet s.activeCounts (extractDomain hostname a)).getD 0 = 0 := by
      rw [inv.countEq, hzero]
    refine ⟨?_, ?_, inv.totalLen, inv.totalLe, ?_, ?_, ?_, inv.lastEq, inv.gaps⟩
    · intro d
      by_cases hd : d = extractDomain hostname a
      · subst hd
        simp only [alistGet_set_self, Option.getD_some]
        omega
      · rw [alistGet_set_ne _ _ _ _ hd]
        exact inv.countEq d
    · dsimp only
      have hs := alistSet_sum s.activeCounts (extractDomain hostname a) 0
      rw [hacd] at hs
      have hsum := inv.sumEq
      omega
    · intro d
      by_cases hd : d = extractDomain hostname a
      · subst hd
        simp only [alistGet_set_self, Option.getD_some]
        exact Nat.zero_le _
      · rw [alistGet_set_ne _ _ _ _ hd]
        exact inv.perLe d
    · intro e he b hb
      rcases mem_alistSet _ _ _ _ he with h1 | h1
      · exact inv.queuesDom e h1 b hb
      · subst h1
        simp only [List.mem_singleton] at hb
        subst hb; rfl
    · intro b hb
      exact alistGet_isSome_set _ _ _ _ (inv.inflightKeys b hb)

theorem addArticles_inv {hostname : String → Option String} {cfg : DomainQueueConfig}
    {g : List QueuedArticle} {log : List (String × Int)} (articles : List QueuedArticle) :
    ∀ {s : DQState}, DQInv hostname cfg s g log →
      DQInv hostname cfg (addArticles hostname s articles) g log := by
  induction articles with
  | nil => intro s inv; exact inv
  | cons x xs ih => intro s inv; exact ih (addArticle_inv x inv)

theorem alistGet_isSome_of_mem {β : Type} {m : List (String × β)} {k : String} {v : β}
    (h : (k, v) ∈ m) : (alistGet m k).isSome = true := by
  induction m with
  | nil => simp at h
  | cons e rest ih =>
    rw [alistGet_cons]
    by_cases he : e.1 = k
    · simp [he]
    · rcases List.mem_cons.mp h with h1 | h1
      · subst h1; simp at he
      · simpa [he] using ih h1

theorem domainTimes_append_one (dd d : String) (now : Int) (log : List (String × Int)) :
    domainTimes dd (log ++ [(d, now)])
      = domainTimes dd log ++ (if d = dd then [now] else []) := by
  unfold domainTimes
  rw [List.filter_append, List.map_append]
  congr 1
  by_cases h : d = dd <;> simp [h]

theorem dispatch_inv {hostname : String → Option String} {cfg : DomainQueueConfig}
    {s : DQState} {g : List QueuedArticle} {log : List (String × Int)}
    {a : QueuedArticle} {s' : DQState} (now : Int)
    (inv : DQInv hostname cfg s g log)
    (h : getNextAvailable cfg s now = some (a, s')) :
    DQInv hostname cfg s' (a :: g) (log ++ [(extractDomain hostname a, now)]) := by
  unfold getNextAvailable at h
  by_cases htot : s.totalActive ≥ cfg.maxTotalConcurrent
  · rw [if_pos htot] at h; exact absurd h (by simp)
  · rw [if_neg htot] at h
    match hfd : findDispatch cfg s.activeCounts s.lastRequestTime now s.queues with
    | none => rw [hfd] at h; exact absurd h (by simp)
    | some (d, a0, queues') =>
      rw [hfd] at h
      obtain ⟨ha0, hs⟩ : a0 = a ∧ _ = s' := by simpa using h
      symm at ha0
      subst ha0
      obtain ⟨pre, q', post, hq1, hq2, hc1, hc2⟩ := findDispatch_spec _ _ _ _ _ hfd
      have hmem : (d, a :: q') ∈ s.queues := by
        rw [hq1]; exact List.mem_append.mpr (Or.inr (List.mem_cons_self _ _))
      have hdom : extractDomain hostname a = d :=
        inv.queuesDom _ hmem a (List.mem_cons_self _ _)
      subst hs
      rw [hdom]
      have hkeys : queues'.map (fun e => e.1) = s.queues.map (fun e => e.1) := by
        rw [hq1, hq2]; simp
      refine ⟨?_, ?_, ?_, ?_, ?_, ?_, ?_, ?_, ?_⟩ <;> dsimp only
      · intro dd
        by_cases hdd : dd = d
        · subst hdd
          rw [alistGet_set_self]
          simp only [Option.getD_some, List.filter_cons, hdom]
          rw [inv.countEq dd]
          simp [hdom]
        · rw [alistGet_set_ne _ _ _ _ hdd, inv.countEq dd]
          have : ¬ (extractDomain hostname a = dd) := by rw [hdom]; exact fun hh => hdd hh.symm
          simp [List.filter_cons, this]
      · have hsum := alistSet_sum s.activeCounts d ((alistGet s.activeCounts d).getD 0 + 1)
        have h2 := inv.sumEq
        omega
      · rw [inv.totalLen]; simp
      · omega
      · intro dd
        by_cases hdd : dd = d
        · subst hdd; rw [alistGet_set_self]; simpa using hc1
        · rw [alistGet_set_ne _ _ _ _ hdd]; exact inv.perLe dd
      · intro e he b hb
        rw [hq2] at he
        rcases List.mem_append.mp he with h1 | h1
        · exact inv.queuesDom e (by rw [hq1]; exact List.mem_append.mpr (Or.inl h1)) b hb
        · rcases List.mem_cons.mp h1 with h2 | h2
          · subst h2
            exact inv.queuesDom _ hmem b (List.mem_cons_of_mem _ hb)
          · exact inv.queuesDom e
              (by rw [hq1]
                  exact List.mem_append.mpr (Or.inr (List.mem_cons_of_mem _ h2))) b hb
      · intro b hb
        rw [alistGet_isSome_eq_of_keys queues' s.queues hkeys]
        rcases List.mem_cons.mp hb with h1 | h1
        · subst h1
          rw [hdom]
          exact alistGet_isSome_of_mem hmem
        · exact inv.inflightKeys b h1
      · intro dd
        rw [domainTimes_append_one]
        by_cases hdd : d = dd
        · subst hdd
          rw [if_pos rfl, alistGet_set_self, List.getLastD_concat]
          rfl
        · rw [if_neg hdd, List.append_nil,
              alistGet_set_ne _ _ _ _ (fun hh => hdd hh.symm)]
          exact inv.lastEq dd
      · intro dd
        rw [domainTimes_append_one]
        by_cases hdd : d = dd
        · subst hdd
          rw [if_pos rfl, List.chain'_append]
          refine ⟨inv.gaps d, List.chain'_singleton now, ?_⟩
          intro x hx y hy
          simp only [List.head?_cons, Option.mem_def, Option.some.injEq] at hy
          subst hy
          have hlast : (domainTimes d log).getLastD 0 = x := by
            simp only [Option.mem_def] at hx
            rw [List.getLastD_eq_getLast?, hx]
            rfl
          have := inv.lastEq d
          omega
        · rw [if_neg hdd, List.append_nil]
          exact inv.gaps dd

theorem complete_inv {hostname : String → Option String} {cfg : DomainQueueConfig}
    {s : DQState} {g : List QueuedArticle} {log : List (String × Int)}
    {a : QueuedArticle} (inv : DQInv hostname cfg s g log) (ha : a ∈ g) :
    DQInv hostname cfg (markComplete hostname s a) (g.erase a) log := by
  have hperm : g.Perm (a :: g.erase a) := List.perm_cons_erase ha
  have hlen : g.length = (g.erase a).length + 1 := by
    rw [hperm.length_eq]; rfl
  have hfilter : ∀ dd, (g.filter (fun b => extractDomain hostname b = dd)).length
      = (if extractDomain hostname a = dd then 1 else 0)
        + ((g.erase a).filter (fun b => extractDomain hostname b = dd)).length := by
    intro dd
    rw [(hperm.filter _).length_eq]
    by_cases hdd : extractDomain hostname a = dd <;> simp [List.filter_cons, hdd] <;> omega
  have hcnt : (alistGet s.activeCounts (extractDomain hostname a)).getD 0
      = ((g.erase a).filter
          (fun b => extractDomain hostname b = extractDomain hostname a)).length + 1 := by
    rw [inv.countEq, hfilter (extractDomain hostname a), if_pos rfl]
    omega
  have hsome : alistGet s.activeCounts (extractDomain hostname a)
      = some (((g.erase a).filter
          (fun b => extractDomain hostname b = extractDomain hostname a)).length + 1) := by
    match hg : alistGet s.activeCounts (extractDomain hostname a) with
    | none => rw [hg] at hcnt; simp at hcnt
    | some c => rw [hg] at hcnt; simp only [Option.getD_some] at hcnt; rw [hcnt]
  rw [show markComplete hostname s a
      = { s with
          activeCounts := alistSet s.activeCounts (extractDomain hostname a)
            ((alistGet s.activeCounts (extractDomain hostname a)).getD 1 - 1),
          totalActive := s.totalActive - 1 } from rfl, hsome]
  simp only [Option.getD_some]
  refine ⟨?_, ?_, ?_, ?_, ?_, inv.queuesDom, ?_, inv.lastEq, inv.gaps⟩ <;> dsimp only
  · intro dd
    by_cases hdd : dd = extractDomain hostname a
    · subst hdd
      rw [alistGet_set_self]
      simp
    · rw [alistGet_set_ne _ _ _ _ hdd, inv.countEq dd]
      rw [hfilter dd, if_neg (fun hh => hdd hh.symm)]
      omega
  · have hsum := alistSet_sum s.activeCounts (extractDomain hostname a)
      (((g.erase a).filter
        (fun b => extractDomain hostname b = extractDomain hostname a)).length + 1 - 1)
    rw [hsome] at hsum
    simp only [Option.getD_some] at hsum
    have h2 := inv.sumEq
    have h3 := inv.totalLen
    omega
  · have := inv.totalLen
    omega
  · have := inv.totalLe
    omega
  · intro dd
    by_cases hdd : dd = extractDomain hostname a
    · subst hdd
      rw [alistGet_set_self]
      have := inv.perLe (extractDomain hostname a)
      rw [hsome] at this
      simp only [Option.getD_some] at this ⊢
      omega
    · rw [alistGet_set_ne _ _ _ _ hdd]
      exact inv.perLe dd
  · intro b hb
    exact inv.inflightKeys b (List.mem_of_mem_erase hb)

theorem DQReach_inv {hostname : String → Option String} {cfg : DomainQueueConfig}
    {s : DQState} {g : List QueuedArticle} {log : List (String × Int)}
    (h : DQReach hostname cfg s g log) : DQInv hostname cfg s g log := by
  induction h with
  | init => exact DQInv.init hostname cfg
  | add articles _ ih => exact addArticles_inv articles ih
  | dispatch now _ hg ih => exact dispatch_inv now ih hg
  | complete _ ha ih => exact complete_inv ih ha

/-! ## Claim theorems -/

/-- C10: for every input URL, `fetchFinalUrl` never throws — it is a total
function of the attempt outcomes — and its value is either the final page
URL of a (reached) successful attempt or, on any navigation failure,
timeout, or browser error, the original input URL unchanged, so a failed
aggregator resolution silently degrades to processing the aggregator URL
itself. -/
theorem C10_fetchFinalUrl_never_throws (url : String) (attempts : Nat → AttemptRes) :
    fetchFinalUrl url attempts = url ∨
      ∃ finalUrl, (attempts 0 = .ok finalUrl ∨ attempts 1 = .ok finalUrl) ∧
        fetchFinalUrl url attempts = finalUrl := by
  cases h0 : attempts 0 with
  | ok f =>
    exact Or.inr ⟨f, Or.inl rfl, by unfold fetchFinalUrl; rw [h0]⟩
  | err m =>
    cases hc : strIncludes m "has been closed" with
    | false =>
      left
      unfold fetchFinalUrl
      rw [h0]
      simp [hc]
    | true =>
      cases h1 : attempts 1 with
      | ok f =>
        refine Or.inr ⟨f, Or.inr rfl, ?_⟩
        unfold fetchFinalUrl
        rw [h0]
        simp [hc, h1]
      | err m2 =>
        left
        unfold fetchFinalUrl
        rw [h0]
        simp [hc, h1]

/-- C8: `resolveUrl` returns a non-aggregator URL unchanged; for an
aggregator URL whose base64 segment decodes to a string with an embedded
`http(s)://…` substring it returns that substring without consulting the
browser resolver (the result is independent of it); and for an aggregator
URL without such a substring it falls back to the browser resolver. -/
theorem C8_resolveUrl_spec (url : String) (browserResolve : String → String) :
    (isGoogleNewsUrl url = false → resolveUrl browserResolve url = url) ∧
    (∀ extracted, isGoogleNewsUrl url = true →
      extractUrlFromBase64 url = some extracted →
      resolveUrl browserResolve url = extracted ∧
        ∀ br2 : String → String, resolveUrl br2 url = extracted) ∧
    (isGoogleNewsUrl url = true → extractUrlFromBase64 url = none →
      resolveUrl browserResolve url = browserResolve url) := by
  refine ⟨?_, ?_, ?_⟩
  · intro h
    simp [resolveUrl, h]
  · intro extracted hg he
    constructor
    · simp [resolveUrl, hg, he]
    · intro br2
      simp [resolveUrl, hg, he]
  · intro hg he
    simp [resolveUrl, hg, he]

/-- A concrete aggregator URL whose base64 segment is the standard base64
of the ASCII string `https://site.example/a`. -/
def c8url : String :=
  "https://news.google.com/rss/articles/aHR0cHM6Ly9zaXRlLmV4YW1wbGUvYQ?oc=5"

/-- An aggregator URL whose first `/articles/` occurrence is immediately
followed by `?`, so the regex engine backtracks and captures the base64 of
`https://a.b` from the second occurrence. -/
def c8urlDouble : String :=
  "https://news.google.com/rss/articles/?x=/articles/aHR0cHM6Ly9hLmI"

/-- Witness for C8: on `c8url` the structural decoding succeeds and
`resolveUrl` returns the embedded URL without the browser resolver; on
`c8urlDouble` the regex backtracks past the empty first capture and the
decoding of the *second* `/articles/` segment is returned. -/
theorem C8_witness :
    (isGoogleNewsUrl c8url = true ∧
      extractUrlFromBase64 c8url = some "https://site.example/a" ∧
      resolveUrl (fun _ => "BROWSER") c8url = "https://site.example/a") ∧
    (isGoogleNewsUrl c8urlDouble = true ∧
      extractUrlFromBase64 c8urlDouble = some "https://a.b" ∧
      resolveUrl (fun _ => "BROWSER") c8urlDouble = "https://a.b") := by
  have h1 : isGoogleNewsUrl c8url = true := by decide
  have h2 : extractUrlFromBase64 c8url = some "https://site.example/a" := by decide
  have h3 : isGoogleNewsUrl c8urlDouble = true := by decide
  have h4 : extractUrlFromBase64 c8urlDouble = some "https://a.b" := by decide
  exact ⟨⟨h1, h2,
      ((C8_resolveUrl_spec c8url (fun _ => "BROWSER")).2.1 "https://site.example/a" h1 h2).1⟩,
    ⟨h3, h4,
      ((C8_resolveUrl_spec c8urlDouble (fun _ => "BROWSER")).2.1 "https://a.b" h3 h4).1⟩⟩

/-- The idle seeded `crawler_status` row. -/
def c3idle : CrawlerStatusRow := { is_crawling := 0 }

/-- C3 counterexample: an exception raised after the lease is taken but
before the `try` block — here a failing bootstrap step, i.e. during the
`Initializing` stage of the cycle — skips the `finally` teardown and lands
in `main().catch`, which writes `is_crawling = 0` but leaves `worker_pid`
set to the worker's own PID, contradicting the claim that every
termination path ends with `worker_pid = null`. -/
theorem C3_counterexample :
    (mainCycle 42 1 (fun _ => false) "2026-01-01T00:00:00Z"
        (.err "simulated storage failure") [] .ok c3idle).is_crawling = 0 ∧
    (mainCycle 42 1 (fun _ => false) "2026-01-01T00:00:00Z"
        (.err "simulated storage failure") [] .ok c3idle).worker_pid = some 42 ∧
    some 42 ≠ (none : Option Nat) := by
  refine ⟨by decide, by decide, by decide⟩

/-- C3 (amended): when the worker actually runs a cycle (no early exit for
a live foreign lease) and the initialization section completes, every
termination of the phased section — normal completion or a thrown
exception in any phase — leaves the CrawlerStatus singleton with
`is_crawling = 0` and `worker_pid = null`; an exception during
initialization instead leaves `is_crawling = 0` with `worker_pid` still
set. -/
theorem C3_teardown_amended (pid ppid : Nat) (alive : Nat → Bool) (nowIso : String)
    (phaseTasks : List TaskPatch) (phases : RunOutcome) (s0 : CrawlerStatusRow)
    (hearly : anotherWorkerAlive pid ppid alive s0 = false) :
    (mainCycle pid ppid alive nowIso .ok phaseTasks phases s0).is_crawling = 0 ∧
    (mainCycle pid ppid alive nowIso .ok phaseTasks phases s0).worker_pid = none := by
  unfold mainCycle
  simp only [hearly, Bool.false_eq_true, if_false]
  cases phases <;> simp [mainCycleBody, updateCrawlerStatus]

/-- Witness for C3's amended theorem: a concrete cycle that runs two phase
updates and completes normally ends idle and unleased. -/
theorem C3_witness :
    (mainCycle 42 1 (fun _ => false) "2026-01-01T00:00:00Z" .ok
        [⟨"Phase 1: Collecting URLs from all feeds...", some 0⟩,
         ⟨"Phase 3: Evaluating 1 articles...", some 1⟩] .ok c3idle).is_crawling = 0 ∧
    (mainCycle 42 1 (fun _ => false) "2026-01-01T00:00:00Z" .ok
        [⟨"Phase 1: Collecting URLs from all feeds...", some 0⟩,
         ⟨"Phase 3: Evaluating 1 articles...", some 1⟩] .ok c3idle).worker_pid = none :=
  C3_teardown_amended 42 1 (fun _ => false) "2026-01-01T00:00:00Z"
    [⟨"Phase 1: Collecting URLs from all feeds...", some 0⟩,
     ⟨"Phase 3: Evaluating 1 articles...", some 1⟩] .ok c3idle (by decide)

theorem upsert_read_aux (p : ArticlePatch) (u : String) :
    ∀ (db : ArticlesTable) (r : ArticleRow), getArticleByUrl db u = some r →
      db.any (fun x => x.url = some u) = true ∧
      getArticleByUrl (upsertMerge u p db) u = some (mergeRow r p) := by
  intro db
  induction db with
  | nil => intro r h; simp [getArticleByUrl] at h
  | cons x rest ih =>
    intro r h
    by_cases hx : x.url = some u
    · have hr : r = x := by
        rw [getArticleByUrl, List.find?_cons_of_pos _ (by simp [hx])] at h
        exact (Option.some.inj h).symm
      subst hr
      refine ⟨by simp [hx], ?_⟩
      rw [show upsertMerge u p (r :: rest) = mergeRow r p :: rest by simp [upsertMerge, hx]]
      rw [getArticleByUrl, List.find?_cons_of_pos _ (by simp [show (mergeRow r p).url = r.url from rfl, hx])]
    · rw [getArticleByUrl, List.find?_cons_of_neg _ (by simp [hx])] at h
      obtain ⟨hany, hread⟩ := ih r h
      refine ⟨by simp [hany, hx], ?_⟩
      rw [show upsertMerge u p (x :: rest) = x :: upsertMerge u p rest by simp [upsertMerge, hx]]
      rw [getArticleByUrl, List.find?_cons_of_neg _ (by simp [hx])]
      exact hread

/-- C1 (amended): for every stored article with url `U` and every partial
record `P` that contains `url = U` and at least one further column,
`saveArticle P` succeeds and reading back url `U` yields exactly the merged
projection — every supplied column overwrites, every omitted column
(including `resolved_url`) keeps its prior value.  (With `url` as the only
key the statement is a SQL syntax error; see the counterexample.) -/
theorem C1_upsert_then_read (now : String) (db : ArticlesTable) (p : ArticlePatch)
    (u : String) (r : ArticleRow)
    (hkey : p.hasNonUrlKey = true) (hurl : p.url = some (some u))
    (hfind : getArticleByUrl db u = some r) :
    ∃ db', saveArticle now db p = some db' ∧
      getArticleByUrl db' u = some (mergeRow r p) := by
  obtain ⟨hany, hread⟩ := upsert_read_aux p u db r hfind
  refine ⟨upsertMerge u p db, ?_, hread⟩
  unfold saveArticle
  rw [hkey, hurl]
  simp [hany]

/-- A stored article with content and a cached `resolved_url`. -/
def c1row : ArticleRow :=
  { url := some "https://ex.example/c", resolved_url := some "https://r.example/c",
    content := some "hello" }

/-- A partial record supplying only `url`. -/
def c1patch : ArticlePatch := { url := some (some "https://ex.example/c") }

/-- C1 counterexample: when `P` supplies only `url`, the generated statement
ends in `DO UPDATE SET ` with an empty assignment list — SQLite rejects it
at prepare time — so `saveArticle` throws instead of producing the merged
projection; the claim, which quantifies over every partial record
containing `url = U`, fails at this input. -/
theorem C1_counterexample :
    ¬ ∃ db', saveArticle "2026-01-01T00:00:00Z" [c1row] c1patch = some db' ∧
        getArticleByUrl db' "https://ex.example/c" = some (mergeRow c1row c1patch) := by
  rintro ⟨db', h, -⟩
  rw [show saveArticle "2026-01-01T00:00:00Z" [c1row] c1patch = none by decide] at h
  exact Option.noConfusion h

/-- A partial record supplying `url` and one more column. -/
def c1patch2 : ArticlePatch :=
  { url := some (some "https://ex.example/c"), content := some (some "updated body") }

/-- Witness for C1's amended theorem at a concrete store and patch. -/
theorem C1_witness :
    ∃ db', saveArticle "2026-01-01T00:00:00Z" [c1row] c1patch2 = some db' ∧
      getArticleByUrl db' "https://ex.example/c" = some (mergeRow c1row c1patch2) :=
  C1_upsert_then_read "2026-01-01T00:00:00Z" [c1row] c1patch2 "https://ex.example/c" c1row
    (by decide) (by decide) (by decide)

theorem unprocessedWhere_eq (r : ArticleRow) :
    unprocessedWhere r
      = (specUnevaluated r ||
          match r.content with
          | some c => decide (c.length < 200)
          | none => false) := by
  unfold unprocessedWhere specUnevaluated sql3Or sqlLength sql3Lt
  cases r.average_score <;> cases r.content <;> simp
  · rename_i c
    cases hlt : decide (c.length < 200) <;> simp [hlt]

/-- C2 (amended): `getUnprocessedArticles(n)` returns the first `n`
(newest first by `created_at`) stored articles satisfying
`average_score IS NULL` or (`content` non-NULL and shorter than 200
characters), with blocked-host articles then removed from those `n`.
Relative to the claim, SQL NULL semantics exclude an article whose
`content` is NULL but whose `average_score` is non-null (`length(NULL) <
200` is NULL, not true); an article with exactly 200 characters and a
non-null score is likewise not returned. -/
theorem C2_unprocessed_characterization (hostname : String → Option String)
    (blocked : List String) (db : ArticlesTable) (limit : Nat) :
    getUnprocessedArticles hostname blocked db limit =
      filterBlockedDomains hostname blocked
        ((sortByCreatedDesc (db.filter (fun r =>
            specUnevaluated r ||
              match r.content with
              | some c => decide (c.length < 200)
              | none => false))).take limit) := by
  unfold getUnprocessedArticles
  rw [List.filter_congr (fun r _ => unprocessedWhere_eq r)]

/-- A crawl-stage failure artifact: no content, yet an average score. -/
def c2row : ArticleRow :=
  { url := some "https://ex.example/b", content := none, average_score := some 4,
    created_at := some "2026-01-01T00:00:00Z" }

/-- C2 counterexample: `c2row` is crawlable in the spec's sense
(`content IS NULL`), hence crawlable-or-unevaluated, but the SQL `WHERE`
clause evaluates to NULL on it (`length(NULL) < 200`), so
`getUnprocessedArticles` does not return it. -/
theorem C2_counterexample :
    (specCrawlable c2row || specUnevaluated c2row) = true ∧
    getUnprocessedArticles (fun _ => none) [] [c2row] 10 = [] :=
  ⟨by decide, by decide⟩

theorem saveArticle_isSome (now : String) (db : ArticlesTable) (p : ArticlePatch)
    (hkey : p.hasNonUrlKey = true) : (saveArticle now db p).isSome = true := by
  unfold saveArticle
  simp only [hkey, if_true]
  cases hu : p.url with
  | none => simp
  | some ou =>
    cases ou with
    | none => simp
    | some u =>
      dsimp only
      split <;> simp

/-- C7: whenever the batch evaluation pipeline reaches a successful LLM
evaluation of an article and a webhook URL is configured, the webhook is
posted exactly once if `averageScore` reaches `score_threshold`, and zero
times if it falls below it. -/
theorem C7_notify_threshold (cfg : ConfigRow) (llm : String → Option EvaluationResult)
    (now : String) (db : ArticlesTable) (url : String) (a : ArticleRow) (c : String)
    (ev : EvaluationResult)
    (hfind : getArticleByUrl db url = some a)
    (hc : a.content = some c)
    (htr : jsTruthy c = true)
    (hlen : ¬ c.length < 200)
    (hscore : a.average_score = none)
    (heval : evaluateArticle cfg llm c = some ev)
    (hweb : jsTruthyOpt cfg.discord_webhook_url = true) :
    (cfg.score_threshold ≤ ev.averageScore →
      (evaluateExistingArticle cfg llm now db url).posts = 1) ∧
    (ev.averageScore < cfg.score_threshold →
      (evaluateExistingArticle cfg llm now db url).posts = 0) := by
  obtain ⟨db', hdb⟩ := Option.isSome_iff_exists.mp
    (saveArticle_isSome now db (scorePatch a.url ev) rfl)
  have hred : (evaluateExistingArticle cfg llm now db url).posts
      = sendDiscordNotificationPosts cfg ev := by
    unfold evaluateExistingArticle
    rw [hfind]
    dsimp only
    rw [hc]
    dsimp only
    rw [if_neg (by simp [htr]), if_neg hlen, if_neg (by simp [hscore]), heval]
    dsimp only
    rw [hdb]
  rw [hred]
  unfold sendDiscordNotificationPosts
  rw [hweb]
  constructor
  · intro h
    rw [if_neg (not_lt.mpr h)]
    simp
  · intro h
    rw [if_pos h]
    simp

/-- A 200-character content string. -/
def c200 : String := String.mk (List.replicate 200 'a')

/-- A config with an API key and a webhook, at the default threshold. -/
def c7cfg : ConfigRow :=
  { open_router_api_key := some "key",
    discord_webhook_url := some "https://discord.example/webhook",
    score_threshold := 3 }

/-- A concrete successful evaluation averaging 4. -/
def c7ev : EvaluationResult :=
  { translatedTitle := "T-ja", summary := "S", shortSummary := "SS",
    scores := { novelty := 5, importance := 4, reliability := 4,
                contextValue := 3, thoughtProvoking := 5 },
    averageScore := 4 }

/-- A crawled, unevaluated article with 200 characters of content. -/
def c7row : ArticleRow :=
  { url := some "https://ex.example/e", original_title := some "T0",
    content := some c200, average_score := none }

/-- Witness for C7: with threshold 3 and average 4 the webhook is posted
exactly once. -/
theorem C7_witness :
    (evaluateExistingArticle c7cfg (fun _ => some c7ev) "t"
        [c7row] "https://ex.example/e").posts = 1 :=
  (C7_notify_threshold c7cfg (fun _ => some c7ev) "t" [c7row] "https://ex.example/e"
      c7row c200 c7ev rfl rfl (by decide) (by decide) rfl rfl
      (by decide)).1 (by decide)

/-- C4 (amended): every content string the batch evaluation phase
(`evaluateExistingArticle`) passes to the LLM evaluator comes from the
stored article's non-null `content` and is at least 200 characters long.
(The synchronous pipeline gives no such guarantee; see the
counterexample.) -/
theorem C4_batch_eval_content (cfg : ConfigRow) (llm : String → Option EvaluationResult)
    (now : String) (db : ArticlesTable) (url : String) :
    ∀ c ∈ (evaluateExistingArticle cfg llm now db url).evalCalls,
      200 ≤ c.length ∧ ∃ a, getArticleByUrl db url = some a ∧ a.content = some c := by
  intro c hcmem
  unfold evaluateExistingArticle at hcmem
  cases hga : getArticleByUrl db url with
  | none => rw [hga] at hcmem; simp at hcmem
  | some a =>
    rw [hga] at hcmem
    dsimp only at hcmem
    cases hct : a.content with
    | none => rw [hct] at hcmem; simp at hcmem
    | some c0 =>
      rw [hct] at hcmem
      dsimp only at hcmem
      by_cases htr : jsTruthy c0 = true
      · by_cases hlen : c0.length < 200
        · simp [htr, hlen] at hcmem
        · by_cases hsc : a.average_score.isSome = true
          · simp [htr, hlen, hsc] at hcmem
          · cases hev : evaluateArticle cfg llm c0 with
            | none =>
              simp [htr, hlen, hsc, hev] at hcmem
              subst hcmem
              exact ⟨by omega, a, rfl, hct⟩
            | some ev =>
              cases hsave : saveArticle now db (scorePatch a.url ev) with
              | none =>
                simp [htr, hlen, hsc, hev, hsave] at hcmem
                subst hcmem
                exact ⟨by omega, a, rfl, hct⟩
              | some db2 =>
                simp [htr, hlen, hsc, hev, hsave] at hcmem
                subst hcmem
                exact ⟨by omega, a, rfl, hct⟩
      · simp [htr] at hcmem

/-- A 50-character content string: accepted by the Readability guard
(minimum 50), far below the evaluator's 200-character floor. -/
def c50 : String := String.mk (List.replicate 50 'a')

/-- A config with only an API key. -/
def c4cfg : ConfigRow := { open_router_api_key := some "key" }

/-- C4 counterexample: a page whose Readability extraction yields 50
characters passes `processArticle`'s guard, and the synchronous pipeline
`fullyProcessAndSaveArticle` then passes those 50 characters straight to
`evaluateArticle` — falsifying the claim that every invoking code path
sends at least 200 characters. -/
theorem C4_counterexample :
    processArticleReadability "T" c50 none "https://u.example/x" "https://u.example/x"
      = some { title := "T", content := c50, imageUrl := "",
               url := "https://u.example/x", resolvedUrl := "https://u.example/x" } ∧
    (fullyProcessAndSaveArticle c4cfg (fun _ => none) "t" []
        (processArticleReadability "T" c50 none "https://u.example/x"
          "https://u.example/x")).evalCalls = [c50] ∧
    c50.length < 200 :=
  ⟨by decide, by decide, by decide⟩

/-- A crawled, unevaluated article used by the C4 witness. -/
def c4row : ArticleRow :=
  { url := some "https://ex.example/f", content := some c200, average_score := none }

/-- Witness for C4's amended theorem: the batch phase does call the
evaluator on a 200-character article, and that call satisfies the bound. -/
theorem C4_witness :
    200 ≤ c200.length ∧
      ∃ a, getArticleByUrl [c4row] "https://ex.example/f" = some a ∧
        a.content = some c200 :=
  C4_batch_eval_content c4cfg (fun _ => none) "t" [c4row] "https://ex.example/f"
    c200 (by decide)

theorem fullyProcessedSkip_iff (db : ArticlesTable) (link : String) :
    fullyProcessedSkip db link = true ↔
      ∃ a, getArticleByUrl db link = some a ∧
        (∃ c, a.content = some c ∧ jsTruthy c = true ∧ 200 < c.length) ∧
        a.average_score ≠ none := by
  unfold fullyProcessedSkip
  cases hga : getArticleByUrl db link with
  | none => simp
  | some a =>
    cases hct : a.content with
    | none => simp [hct]
    | some c =>
      simp only [hct, Option.some.injEq, Bool.and_eq_true, decide_eq_true_eq,
        Option.isSome_iff_ne_none]
      constructor
      · rintro ⟨⟨h1, h2⟩, h3⟩
        exact ⟨a, rfl, ⟨c, hct, h1, h2⟩, h3⟩
      · rintro ⟨a', rfl, ⟨c', hc', h1, h2⟩, h3⟩
        rw [hct] at hc'
        cases Option.some.inj hc'
        exact ⟨⟨h1, h2⟩, h3⟩

/-- C9 (amended): a feed item with a non-empty link yields no
CollectedArticle iff the Store already holds a record for the link with
truthy content *strictly longer than* 200 characters and a non-null
`average_score`, or the URL-resolution step fails; a record with exactly
200 characters of content and a non-null score is *not* skipped. -/
theorem C9_skip_iff (db : ArticlesTable) (resolve : String → Option String)
    (sourceId : Nat) (sourceName : String) (item : FeedItem)
    (hlink : jsTruthy item.link = true) :
    collectItem db resolve sourceId sourceName item = none ↔
      ((∃ a, getArticleByUrl db item.link = some a ∧
          (∃ c, a.content = some c ∧ jsTruthy c = true ∧ 200 < c.length) ∧
          a.average_score ≠ none) ∨ resolve item.link = none) := by
  have h1 : collectItem db resolve sourceId sourceName item = none ↔
      (fullyProcessedSkip db item.link = true ∨ resolve item.link = none) := by
    unfold collectItem
    cases hskip : fullyProcessedSkip db item.link <;>
      cases hres : resolve item.link <;> simp
  rw [h1]
  exact or_congr (fullyProcessedSkip_iff db item.link) Iff.rfl

/-- A stored record with exactly 200 characters of content and a score. -/
def c9row : ArticleRow :=
  { url := some "https://ex.example/a", content := some c200, average_score := some 3 }

/-- The feed item linking to `c9row`. -/
def c9item : FeedItem := { link := "https://ex.example/a" }

/-- C9 counterexample: the spec's skip condition (`content ≥ 200 chars` and
non-null score) holds for `c9row`, yet `collectFeedUrls` does *not* skip
the item — the code tests `content.length > 200` strictly — so it emits a
CollectedArticle. -/
theorem C9_counterexample :
    specFullyProcessed [c9row] "https://ex.example/a" = true ∧
    collectItem [c9row] (fun u => some u) 1 "feed" c9item ≠ none :=
  ⟨by decide, by decide⟩

/-- A 201-character content string. -/
def c201 : String := String.mk (List.replicate 201 'a')

/-- A stored record strictly longer than 200 characters, with a score. -/
def c9rowLong : ArticleRow :=
  { url := some "https://ex.example/d", content := some c201, average_score := some 3 }

/-- The feed item linking to `c9rowLong`. -/
def c9item2 : FeedItem := { link := "https://ex.example/d" }

/-- Witness for C9's amended theorem: a 201-character fully-processed
record makes the item skip. -/
theorem C9_witness :
    collectItem [c9rowLong] (fun u => some u) 1 "feed" c9item2 = none :=
  (C9_skip_iff [c9rowLong] (fun u => some u) 1 "feed" c9item2 (by decide)).mpr
    (Or.inl ⟨c9rowLong, by decide, ⟨c201, rfl, by decide, by decide⟩, by decide⟩)

/-- C5: along every operation sequence in which each `markComplete` matches
one prior `getNextAvailable` dispatch, the scheduler state satisfies: the
per-host counters sum to `totalActive`; `totalActive` never exceeds
`maxTotalConcurrent`; every host's counter is at most
`maxConcurrentPerDomain`; and every pending completion finds a strictly
positive counter, so `markComplete` never underflows (counters are never
clamped at zero, hence never "negative"). -/
theorem C5_queue_invariants (hostname : String → Option String)
    (cfg : DomainQueueConfig) (s : DQState) (g : List QueuedArticle)
    (log : List (String × Int)) (h : DQReach hostname cfg s g log) :
    (s.activeCounts.map (fun e => e.2)).sum = s.totalActive ∧
    s.totalActive ≤ cfg.maxTotalConcurrent ∧
    (∀ d, (alistGet s.activeCounts d).getD 0 ≤ cfg.maxConcurrentPerDomain) ∧
    (∀ a ∈ g, 1 ≤ (alistGet s.activeCounts (extractDomain hostname a)).getD 0) := by
  have inv := DQReach_inv h
  refine ⟨inv.sumEq, inv.totalLe, inv.perLe, ?_⟩
  intro a ha
  rw [inv.countEq]
  have hmem : a ∈ g.filter (fun b => extractDomain hostname b = extractDomain hostname a) :=
    List.mem_filter.mpr ⟨ha, by simp⟩
  have hpos := List.length_pos.mpr (List.ne_nil_of_mem hmem)
  omega

/-- C6: for every host, any two consecutive dispatches returned by
`getNextAvailable` for that host are at least `domainDelayMs` apart — the
`now - lastTime < domainDelayMs` guard skips the host, and a dispatch
stamps `lastRequestTime` with its own `now`. -/
theorem C6_domain_delay (hostname : String → Option String)
    (cfg : DomainQueueConfig) (s : DQState) (g : List QueuedArticle)
    (log : List (String × Int)) (h : DQReach hostname cfg s g log) (d : String) :
    List.Chain' (fun t₁ t₂ => t₁ + cfg.domainDelayMs ≤ t₂) (domainTimes d log) :=
  (DQReach_inv h).gaps d

/-- A hostname oracle mapping every URL to the host `h`. -/
def wHostname : String → Option String := fun _ => some "h"

/-- The worker's default throttling configuration. -/
def wCfg : DomainQueueConfig :=
  { maxConcurrentPerDomain := 2, maxTotalConcurrent := 10, domainDelayMs := 1000 }

/-- First queued article of the concrete trace. -/
def wArt1 : QueuedArticle := { url := "https://h/1", resolvedUrl := "https://h/1" }

/-- Second queued article of the concrete trace. -/
def wArt2 : QueuedArticle := { url := "https://h/2", resolvedUrl := "https://h/2" }

/-- State after adding both articles. -/
def wS1 : DQState := addArticles wHostname DQState.init [wArt1, wArt2]

/-- State after dispatching `wArt1` at time 1000. -/
def wS2 : DQState :=
  { queues := [("h", [wArt2])], activeCounts := [("h", 1)],
    lastRequestTime := [("h", 1000)], totalActive := 1 }

/-- State after dispatching `wArt2` at time 2500. -/
def wS3 : DQState :=
  { queues := [("h", [])], activeCounts := [("h", 2)],
    lastRequestTime := [("h", 2500)], totalActive := 2 }

/-- Witness for C5 on a concrete trace: add two same-host articles, then
dispatch both; the invariants hold in the resulting state with both
dispatches still in flight. -/
theorem C5_witness :
    (wS3.activeCounts.map (fun e => e.2)).sum = wS3.totalActive ∧
    wS3.totalActive ≤ wCfg.maxTotalConcurrent ∧
    (∀ d, (alistGet wS3.activeCounts d).getD 0 ≤ wCfg.maxConcurrentPerDomain) ∧
    (∀ a ∈ [wArt2, wArt1],
      1 ≤ (alistGet wS3.activeCounts (extractDomain wHostname a)).getD 0) := by
  have r1 : DQReach wHostname wCfg wS1 [] [] :=
    DQReach.add [wArt1, wArt2] DQReach.init
  have h2 : getNextAvailable wCfg wS1 1000 = some (wArt1, wS2) := by decide
  have r2 := DQReach.dispatch 1000 r1 h2
  have h3 : getNextAvailable wCfg wS2 2500 = some (wArt2, wS3) := by decide
  have r3 := DQReach.dispatch 2500 r2 h3
  exact C5_queue_invariants wHostname wCfg wS3 _ _ r3

/-- Witness for C6 on the same concrete trace: the two dispatches to host
`h` at times 1000 and 2500 respect the 1000 ms spacing. -/
theorem C6_witness :
    List.Chain' (fun t₁ t₂ => t₁ + wCfg.domainDelayMs ≤ t₂)
      (domainTimes "h" [("h", 1000), ("h", 2500)]) := by
  have r1 : DQReach wHostname wCfg wS1 [] [] :=
    DQReach.add [wArt1, wArt2] DQReach.init
  have h2 : getNextAvailable wCfg wS1 1000 = some (wArt1, wS2) := by decide
  have r2 := DQReach.dispatch 1000 r1 h2
  have h3 : getNextAvailable wCfg wS2 2500 = some (wArt2, wS3) := by decide
  have r3 := DQReach.dispatch 2500 r2 h3
  exact C6_domain_delay wHostname wCfg wS3 _ _ r3 "h"

end RssReader
